import Mathlib

/-!
Verification of the command-log-driven raster painter (src/paint.c).

The development shallowly embeds the core of src/paint.c:
the canvas model, the rasterization primitives, the command interpreter,
the history list and the undo/save/load mechanism.  Machine integers are
modelled as unbounded Int (the program validates its integer tokens with
strtol and the verified scenarios stay far from overflow); C integer
division, which truncates toward zero, is modelled by Int.tdiv.  Strings
are modelled as List Char; a command keeps its trailing newline exactly as
the C buffers do, and interpret_command drops the final character before
tokenizing, as the C code does.  File I/O is modelled by a function from
file names to an optional list of fgets-delivered lines, and the
floating-point circle sampling is an environment parameter (no claim
depends on the sampled points, only on determinism).
-/

namespace Paint

/-- Result enumeration of src/paint.c (enum res). -/
inductive Result where
  | EXIT
  | LINE
  | RECT
  | CIRCLE
  | UNDO
  | SAVE
  | LOAD
  | CHPEN
  | UNKNOWN
  | ERRFILE
  | ERRNONINT
  | ERRLACKARGS
  | NOCOMMAND
deriving DecidableEq

/-- The Canvas structure of src/paint.c: width, height, the cell grid
(column-major: grid is the list of columns, each column indexed by y,
mirroring canvas[x][y]), and the current pen character. -/
structure Canvas where
  width : Nat
  height : Nat
  pen : Char
  grid : List (List Char)
deriving DecidableEq

/-- init_canvas: all cells blank, given pen. -/
def init_canvas (width height : Nat) (pen : Char) : Canvas :=
  { width := width, height := height, pen := pen,
    grid := List.replicate width (List.replicate height ' ') }

/-- reset_canvas: memset of the whole cell block with blanks; dimensions
and pen are untouched. -/
def reset_canvas (c : Canvas) : Canvas :=
  { c with grid := List.replicate c.width (List.replicate c.height ' ') }

/-- Reading cell canvas[x][y]; out-of-shape reads default to blank. -/
def getCell (c : Canvas) (x y : Nat) : Char :=
  (c.grid.getD x []).getD y ' '

/-- The guarded per-point write used by every drawing routine:
if (x >= 0 && x < width && y >= 0 && y < height) canvas[x][y] = pen. -/
def setCell (c : Canvas) (x y : Int) : Canvas :=
  if 0 ≤ x ∧ x < (c.width : Int) ∧ 0 ≤ y ∧ y < (c.height : Int) then
    { c with grid := c.grid.set x.toNat ((c.grid.getD x.toNat []).set y.toNat c.pen) }
  else c

/-- The max helper of src/paint.c. -/
def cmax (a b : Int) : Int := if a > b then a else b

/-- The points plotted by draw_line, in plotting order: first (x0,y0),
then, with n = max(|x1-x0|,|y1-y0|), the points
(x0 + i*(x1-x0)/n, y0 + i*(y1-y0)/n) for i = 1..n, where / is C integer
division (truncation toward zero, Int.tdiv). -/
def linePts (x0 y0 x1 y1 : Int) : List (Int × Int) :=
  let n : Int := cmax ((x1 - x0).natAbs : Int) ((y1 - y0).natAbs : Int)
  (x0, y0) :: (List.range n.toNat).map (fun (j : Nat) =>
    (x0 + Int.tdiv (((j : Int) + 1) * (x1 - x0)) n,
     y0 + Int.tdiv (((j : Int) + 1) * (y1 - y0)) n))

/-- draw_line of src/paint.c: plot each point of linePts in order, each
write clipped against the canvas bounds. -/
def draw_line (c : Canvas) (x0 y0 x1 y1 : Int) : Canvas :=
  (linePts x0 y0 x1 y1).foldl (fun acc p => setCell acc p.1 p.2) c

/-- draw_rect of src/paint.c: nothing when width or height is nonpositive,
otherwise the four outline draw_line calls. -/
def draw_rect (c : Canvas) (x0 y0 width height : Int) : Canvas :=
  if width ≤ 0 ∨ height ≤ 0 then c
  else
    let x1 := x0 + width - 1
    let y1 := y0 + height - 1
    let c1 := draw_line c x0 y0 x1 y0
    let c2 := draw_line c1 x0 y1 x1 y1
    let c3 := draw_line c2 x0 y0 x0 y1
    draw_line c3 x1 y0 x1 y1

/-- The floating-point sampling (int)(r*cos(deg*pi/180)), (int)(r*sin(...))
of draw_circle is an environment parameter: a function from radius and
degree to the integer offsets.  No claim in this development depends on
the sampled values. -/
abbrev Trig := Int → Nat → Int × Int

/-- draw_circle of src/paint.c: nothing when r <= 0, else 360 clipped
point writes at the sampled offsets. -/
def draw_circle (trig : Trig) (c : Canvas) (x0 y0 r : Int) : Canvas :=
  if r ≤ 0 then c
  else (List.range 360).foldl (fun acc deg =>
    setCell acc (x0 + (trig r deg).1) (y0 + (trig r deg).2)) c

/-- buf[strlen(buf)-1] = 0 in interpret_command: drop the last character
(normally the trailing newline delivered by fgets). -/
def chop (s : List Char) : List Char := s.dropLast

/-- Worker for splitTok: acc holds the reversed characters of the token
being scanned. -/
def splitTokGo : List Char → List Char → List (List Char)
  | [], acc => if acc = [] then [] else [acc.reverse]
  | c :: rest, acc =>
    if c = ' ' then
      (if acc = [] then splitTokGo rest [] else acc.reverse :: splitTokGo rest [])
    else splitTokGo rest (c :: acc)

/-- strtok(.., " ") tokenization: the maximal nonempty runs of non-space
characters, in order. -/
def splitTok (l : List Char) : List (List Char) := splitTokGo l []

/-- The whitespace class skipped by strtol before the number. -/
def isCSpace (c : Char) : Bool :=
  c == ' ' || c == '\t' || c == '\n' || c == '\r' || c == '\x0b' || c == '\x0c'

/-- Decimal value of a digit run. -/
def digitsVal (l : List Char) : Nat :=
  l.foldl (fun a c => a * 10 + (c.toNat - 48)) 0

/-- strtol(tok, &e, 10) followed by the check *e == 0: the whole token
must be optional whitespace, an optional sign, and at least one digit.
Overflow clamping of strtol is not modelled (values stay unbounded). -/
def parseIntFull (t : List Char) : Option Int :=
  match t.dropWhile isCSpace with
  | '+' :: rest =>
      if rest ≠ [] ∧ rest.all (fun c => c.isDigit) then some (digitsVal rest) else none
  | '-' :: rest =>
      if rest ≠ [] ∧ rest.all (fun c => c.isDigit) then some (-(digitsVal rest : Int)) else none
  | rest =>
      if rest ≠ [] ∧ rest.all (fun c => c.isDigit) then some (digitsVal rest) else none

/-- The canvas-level action a parsed command performs. -/
inductive CAction where
  | skip
  | chpen (p : Char)
  | line (x0 y0 x1 y1 : Int)
  | rect (x0 y0 w h : Int)
  | circle (x0 y0 r : Int)
deriving DecidableEq

/-- The parsing phase of interpret_command for the canvas-level verbs
(chpen, rect, circle, line, quit), on the token list of the chopped
command: the Result together with the canvas action to perform.
The branch order and every check mirror src/paint.c; in particular the
drawing verbs read exactly their arity of argument tokens and ignore any
further tokens, while chpen rejects extra tokens with UNKNOWN. -/
def decode_tokens (toks : List (List Char)) : Result × CAction :=
  match toks with
  | [] => (Result.UNKNOWN, CAction.skip)
  | v :: args =>
    if v = "chpen".toList then
      match args with
      | [] => (Result.ERRLACKARGS, CAction.skip)
      | p :: rest =>
        match p with
        | [] => (Result.ERRLACKARGS, CAction.skip)
        | p0 :: ptail =>
          if p0 = ' ' ∨ p0 = '\t' ∨ p0 = '\n' then (Result.ERRLACKARGS, CAction.skip)
          else if ptail ≠ [] then (Result.ERRLACKARGS, CAction.skip)
          else if rest ≠ [] then (Result.UNKNOWN, CAction.skip)
          else (Result.CHPEN, CAction.chpen p0)
    else if v = "rect".toList then
      match args with
      | a0 :: a1 :: a2 :: a3 :: _ =>
        match parseIntFull a0, parseIntFull a1, parseIntFull a2, parseIntFull a3 with
        | some v0, some v1, some v2, some v3 => (Result.RECT, CAction.rect v0 v1 v2 v3)
        | _, _, _, _ => (Result.ERRNONINT, CAction.skip)
      | _ => (Result.ERRLACKARGS, CAction.skip)
    else if v = "circle".toList then
      match args with
      | a0 :: a1 :: a2 :: _ =>
        match parseIntFull a0, parseIntFull a1, parseIntFull a2 with
        | some v0, some v1, some v2 => (Result.CIRCLE, CAction.circle v0 v1 v2)
        | _, _, _ => (Result.ERRNONINT, CAction.skip)
      | _ => (Result.ERRLACKARGS, CAction.skip)
    else if v = "line".toList then
      match args with
      | a0 :: a1 :: a2 :: a3 :: _ =>
        match parseIntFull a0, parseIntFull a1, parseIntFull a2, parseIntFull a3 with
        | some v0, some v1, some v2, some v3 => (Result.LINE, CAction.line v0 v1 v2 v3)
        | _, _, _, _ => (Result.ERRNONINT, CAction.skip)
      | _ => (Result.ERRLACKARGS, CAction.skip)
    else if v = "quit".toList then (Result.EXIT, CAction.skip)
    else (Result.UNKNOWN, CAction.skip)

/-- Execute a decoded canvas action. -/
def apply_action (trig : Trig) (a : CAction) (c : Canvas) : Canvas :=
  match a with
  | CAction.skip => c
  | CAction.chpen p => { c with pen := p }
  | CAction.line x0 y0 x1 y1 => draw_line c x0 y0 x1 y1
  | CAction.rect x0 y0 w h => draw_rect c x0 y0 w h
  | CAction.circle x0 y0 r => draw_circle trig c x0 y0 r

/-- The canvas-level interpreter on a token list. -/
def interp_tokens (trig : Trig) (toks : List (List Char)) (c : Canvas) : Result × Canvas :=
  ((decode_tokens toks).1, apply_action trig (decode_tokens toks).2 c)

/-- The canvas-level interpreter on a raw command string: chop the last
character, tokenize, decode, execute.  This is the interpreter used in
replay mode (undo and load), where the replayed entries are drawing or
chpen commands and the history is never touched. -/
def interp_canvas (trig : Trig) (s : List Char) (c : Canvas) : Result × Canvas :=
  interp_tokens trig (splitTok (chop s)) c

/-- The Result a command string evaluates to, independent of the canvas. -/
def lineResult (s : List Char) : Result :=
  (decode_tokens (splitTok (chop s))).1

/-- The session state: the canvas and the command History (entries kept
verbatim, oldest first, as the singly linked list of src/paint.c). -/
structure PState where
  canvas : Canvas
  history : List (List Char)
deriving DecidableEq

/-- The undo replay loop of src/paint.c: run every history entry except
the last, in order, through the interpreter. -/
def undo_replay (trig : Trig) : List (List Char) → Canvas → Canvas
  | [], c => c
  | [_], c => c
  | e :: e2 :: rest, c => undo_replay trig (e2 :: rest) (interp_canvas trig e c).2

/-- The command buffer size of main (also the history bufsize). -/
def bufsize : Nat := 1000

/-- The first-token test of load_history on a raw file line: is the first
strtok token one of the four recognized mutating verbs? -/
def loadGuard (l : List Char) : Bool :=
  match (splitTok l).head? with
  | some v => decide (v = "line".toList ∨ v = "rect".toList ∨ v = "circle".toList ∨ v = "chpen".toList)
  | none => false

/-- The file system model: a file name resolves to the list of lines
fgets would deliver, or to none when fopen fails. -/
abbrev FileSys := List Char → Option (List (List Char))

/-- The line loop of load_history: an over-length line is ERRFILE; a line
whose first token is a mutating verb is run through the interpreter and,
unless the result is ERRNONINT or ERRLACKARGS (which abort with that
result), appended to the history; any other line is skipped.  An empty
remainder returns LOAD. -/
def loadLines (trig : Trig) : List (List Char) → PState → Result × PState
  | [], st => (Result.LOAD, st)
  | buf :: rest, st =>
    if bufsize ≤ buf.length then (Result.ERRFILE, st)
    else if loadGuard buf then
      let rc := interp_canvas trig buf st.canvas
      if rc.1 = Result.ERRNONINT ∨ rc.1 = Result.ERRLACKARGS then
        (rc.1, { st with canvas := rc.2 })
      else loadLines trig rest { canvas := rc.2, history := st.history ++ [buf] }
    else loadLines trig rest st

/-- load_history of src/paint.c: resolve the default file name, open the
file (failure is ERRFILE, before anything is touched), then reset the
canvas and process the lines. -/
def load_history (trig : Trig) (fs : FileSys) (filename : Option (List Char))
    (st : PState) : Result × PState :=
  let name := filename.getD ("history.txt".toList)
  match fs name with
  | none => (Result.ERRFILE, st)
  | some lines => loadLines trig lines { st with canvas := reset_canvas st.canvas }

/-- interpret_command of src/paint.c.  The chopped command is tokenized;
load, save and undo are handled at the state level, every other verb is
delegated to the canvas-level interpreter and leaves the history alone.
The undo branch resets the canvas before the emptiness test, exactly as
the C code does. -/
def interpret_command (trig : Trig) (fs : FileSys) (cmd : List Char) (st : PState) :
    Result × PState :=
  match splitTok (chop cmd) with
  | [] => (Result.UNKNOWN, st)
  | v :: args =>
    if v = "load".toList then
      match args with
      | [] => load_history trig fs none st
      | f :: rest => if rest ≠ [] then (Result.UNKNOWN, st) else load_history trig fs (some f) st
    else if v = "save".toList then (Result.SAVE, st)
    else if v = "undo".toList then
      let c0 := reset_canvas st.canvas
      match st.history with
      | [] => (Result.NOCOMMAND, { st with canvas := c0 })
      | _ :: _ =>
        (Result.UNDO,
         { canvas := undo_replay trig st.history c0, history := st.history.dropLast })
    else
      let rc := interp_tokens trig (v :: args) st.canvas
      (rc.1, { st with canvas := rc.2 })

/-- save_history writes every history entry verbatim, in order; since
every entry is a single newline-terminated line, reading the file back
with fgets delivers exactly the entry list.  The save output is therefore
the history itself. -/
def save_history (his : List (List Char)) : List (List Char) := his

/-- The startup state of main: a blank canvas with pen and the initial
history entry chpen *, pushed before any user input is read. -/
def initState (w h : Nat) : PState :=
  { canvas := init_canvas w h '*', history := ["chpen *\n".toList] }

/-- Did this Result cause main to append the command to the history? -/
def isMutResult (r : Result) : Bool :=
  decide (r = Result.LINE ∨ r = Result.RECT ∨ r = Result.CIRCLE ∨ r = Result.CHPEN)

/-- One iteration of the main loop (redraw and messaging omitted):
interpret the line and, when the result is a drawing or pen verb, append
the raw line to the history. -/
def session_step (trig : Trig) (fs : FileSys) (st : PState) (cmd : List Char) : PState :=
  let rs := interpret_command trig fs cmd st
  if isMutResult rs.1 then { rs.2 with history := rs.2.history ++ [cmd] } else rs.2

/-- A whole interactive session over the given input lines. -/
def session (trig : Trig) (fs : FileSys) (w h : Nat) (cmds : List (List Char)) : PState :=
  cmds.foldl (session_step trig fs) (initState w h)

/-- Every command of the list is accepted as a mutating command at the
point where the session reaches it. -/
def accepted_mutating (trig : Trig) (fs : FileSys) : PState → List (List Char) → Bool
  | _, [] => true
  | st, cmd :: rest =>
    isMutResult (interpret_command trig fs cmd st).1 &&
      accepted_mutating trig fs (session_step trig fs st cmd) rest

/-- Replay a list of commands through the canvas-level interpreter. -/
def replayFold (trig : Trig) (cmds : List (List Char)) (c : Canvas) : Canvas :=
  cmds.foldl (fun acc e => (interp_canvas trig e acc).2) c

/-- Shape invariant of the canvas grid. -/
def wfC (c : Canvas) : Prop :=
  c.grid.length = c.width ∧ ∀ col ∈ c.grid, col.length = c.height

instance (c : Canvas) : Decidable (wfC c) := by
  unfold wfC; exact inferInstance

end Paint

namespace Paint

theorem setCell_width (c : Canvas) (x y : Int) : (setCell c x y).width = c.width := by
  unfold setCell; split <;> rfl

theorem setCell_height (c : Canvas) (x y : Int) : (setCell c x y).height = c.height := by
  unfold setCell; split <;> rfl

theorem setCell_pen (c : Canvas) (x y : Int) : (setCell c x y).pen = c.pen := by
  unfold setCell; split <;> rfl

theorem wfC_setCell (c : Canvas) (h : wfC c) (x y : Int) : wfC (setCell c x y) := by
  unfold setCell
  split
  · rename_i hb
    obtain ⟨hx0, hxw, hy0, hyh⟩ := hb
    have hxlt : x.toNat < c.grid.length := by rw [h.1]; omega
    refine ⟨by simpa using h.1, ?_⟩
    intro col hcol
    rcases List.mem_or_eq_of_mem_set hcol with h1 | h1
    · exact h.2 col h1
    · subst h1
      rw [List.length_set, List.getD_eq_getElem _ _ hxlt]
      exact h.2 _ (List.getElem_mem hxlt)
  · exact h

theorem getDgetD_set (g : List (List Char)) (nx ny cx cy : Nat) (p : Char)
    (hnx : nx < g.length) (hny : ny < (g[nx]?.getD []).length) :
    ((g.set nx ((g[nx]?.getD []).set ny p))[cx]?.getD [])[cy]?.getD ' ' =
      if nx = cx ∧ ny = cy then p else (g[cx]?.getD [])[cy]?.getD ' ' := by
  by_cases hxeq : nx = cx
  · subst hxeq
    rw [List.getElem?_set_self hnx, Option.getD_some]
    by_cases hyeq : ny = cy
    · subst hyeq
      rw [List.getElem?_set_self hny, Option.getD_some, if_pos ⟨rfl, rfl⟩]
    · rw [List.getElem?_set_ne hyeq, if_neg (fun hq => hyeq hq.2)]
  · rw [List.getElem?_set_ne hxeq, if_neg (fun hq => hxeq hq.1)]

theorem getCell_setCell (c : Canvas) (h : wfC c) (x y : Int) (cx cy : Nat)
    (hx : cx < c.width) (hy : cy < c.height) :
    getCell (setCell c x y) cx cy =
      if x = (cx : Int) ∧ y = (cy : Int) then c.pen else getCell c cx cy := by
  unfold setCell
  split
  · rename_i hb
    obtain ⟨hx0, hxw, hy0, hyh⟩ := hb
    have hxlt : x.toNat < c.grid.length := by rw [h.1]; omega
    have hny : y.toNat < (c.grid[x.toNat]?.getD []).length := by
      rw [← List.getD_eq_getElem?_getD, List.getD_eq_getElem _ _ hxlt]
      have := h.2 _ (List.getElem_mem hxlt)
      omega
    have hiff : (x.toNat = cx ∧ y.toNat = cy) ↔ (x = (cx : Int) ∧ y = (cy : Int)) := by
      omega
    simp only [getCell, List.getD_eq_getElem?_getD]
    rw [getDgetD_set _ _ _ _ _ _ hxlt hny, if_congr hiff rfl rfl]
  · rename_i hb
    rw [if_neg]
    rintro ⟨h1, h2⟩
    apply hb
    refine ⟨by omega, by omega, by omega, by omega⟩

theorem plotList_width (ps : List (Int × Int)) (c : Canvas) :
    (ps.foldl (fun acc p => setCell acc p.1 p.2) c).width = c.width := by
  induction ps generalizing c with
  | nil => rfl
  | cons p ps ih => rw [List.foldl_cons, ih, setCell_width]

theorem plotList_height (ps : List (Int × Int)) (c : Canvas) :
    (ps.foldl (fun acc p => setCell acc p.1 p.2) c).height = c.height := by
  induction ps generalizing c with
  | nil => rfl
  | cons p ps ih => rw [List.foldl_cons, ih, setCell_height]

theorem plotList_pen (ps : List (Int × Int)) (c : Canvas) :
    (ps.foldl (fun acc p => setCell acc p.1 p.2) c).pen = c.pen := by
  induction ps generalizing c with
  | nil => rfl
  | cons p ps ih => rw [List.foldl_cons, ih, setCell_pen]

theorem wfC_plotList (ps : List (Int × Int)) (c : Canvas) (h : wfC c) :
    wfC (ps.foldl (fun acc p => setCell acc p.1 p.2) c) := by
  induction ps generalizing c with
  | nil => exact h
  | cons p ps ih => exact ih _ (wfC_setCell c h p.1 p.2)

theorem getCell_plotList (ps : List (Int × Int)) (c : Canvas) (h : wfC c) (cx cy : Nat)
    (hx : cx < c.width) (hy : cy < c.height) :
    getCell (ps.foldl (fun acc p => setCell acc p.1 p.2) c) cx cy =
      if ((cx : Int), (cy : Int)) ∈ ps then c.pen else getCell c cx cy := by
  induction ps generalizing c with
  | nil => simp
  | cons p ps ih =>
    obtain ⟨pa, pb⟩ := p
    rw [List.foldl_cons]
    have hwf2 := wfC_setCell c h pa pb
    have hx2 : cx < (setCell c pa pb).width := by rw [setCell_width]; exact hx
    have hy2 : cy < (setCell c pa pb).height := by rw [setCell_height]; exact hy
    rw [ih _ hwf2 hx2 hy2, setCell_pen, getCell_setCell c h pa pb cx cy hx hy]
    by_cases hmem : ((cx : Int), (cy : Int)) ∈ ps
    · simp [hmem]
    · by_cases hpe : pa = (cx : Int) ∧ pb = (cy : Int)
      · obtain ⟨h1, h2⟩ := hpe
        subst h1
        subst h2
        simp [hmem]
      · have hq : ¬ ((cx : Int), (cy : Int)) = (pa, pb) := by
          intro hq
          rw [Prod.mk.injEq] at hq
          exact hpe ⟨hq.1.symm, hq.2.symm⟩
        simp [hmem, hpe, hq]

end Paint

namespace Paint

theorem draw_line_width (c : Canvas) (x0 y0 x1 y1 : Int) :
    (draw_line c x0 y0 x1 y1).width = c.width := plotList_width _ _

theorem draw_line_height (c : Canvas) (x0 y0 x1 y1 : Int) :
    (draw_line c x0 y0 x1 y1).height = c.height := plotList_height _ _

theorem draw_line_pen (c : Canvas) (x0 y0 x1 y1 : Int) :
    (draw_line c x0 y0 x1 y1).pen = c.pen := plotList_pen _ _

theorem wfC_draw_line (c : Canvas) (h : wfC c) (x0 y0 x1 y1 : Int) :
    wfC (draw_line c x0 y0 x1 y1) := wfC_plotList _ _ h

theorem getCell_draw_line (c : Canvas) (h : wfC c) (x0 y0 x1 y1 : Int) (cx cy : Nat)
    (hx : cx < c.width) (hy : cy < c.height) :
    getCell (draw_line c x0 y0 x1 y1) cx cy =
      if ((cx : Int), (cy : Int)) ∈ linePts x0 y0 x1 y1 then c.pen else getCell c cx cy :=
  getCell_plotList _ _ h _ _ hx hy

/-- C7: draw_line with n = max(|x1-x0|,|y1-y0|) plots (x0,y0) and, for
i = 1..n, the points (x0 + i*(x1-x0)/n, y0 + i*(y1-y0)/n) under C integer
division truncated toward zero (this is the point list linePts): an
in-bounds cell ends up holding the pen exactly when it is one of those
points, every other cell is untouched, out-of-bounds points are silently
skipped, the call never fails or resizes the canvas (dimensions and pen
are preserved), and when n = 0 the point list is just (x0,y0). -/
theorem claim_C7_draw_line (c : Canvas) (h : wfC c) (x0 y0 x1 y1 : Int) (cx cy : Nat)
    (hx : cx < c.width) (hy : cy < c.height) :
    (getCell (draw_line c x0 y0 x1 y1) cx cy =
      if ((cx : Int), (cy : Int)) ∈ linePts x0 y0 x1 y1 then c.pen else getCell c cx cy)
    ∧ (draw_line c x0 y0 x1 y1).width = c.width
    ∧ (draw_line c x0 y0 x1 y1).height = c.height
    ∧ (draw_line c x0 y0 x1 y1).pen = c.pen
    ∧ (cmax ((x1 - x0).natAbs : Int) ((y1 - y0).natAbs : Int) = 0 →
        linePts x0 y0 x1 y1 = [(x0, y0)]) := by
  refine ⟨getCell_draw_line c h x0 y0 x1 y1 cx cy hx hy,
    draw_line_width c x0 y0 x1 y1, draw_line_height c x0 y0 x1 y1,
    draw_line_pen c x0 y0 x1 y1, ?_⟩
  intro h0
  have h0t : (cmax ((x1 - x0).natAbs : Int) ((y1 - y0).natAbs : Int)).toNat = 0 := by
    rw [h0]; rfl
  simp only [linePts, h0t, List.range_zero, List.map_nil]

/-- Witness for claim_C7_draw_line at a concrete canvas and line. -/
theorem claim_C7_draw_line_witness :
    wfC (init_canvas 4 4 '*') ∧ (2 : Nat) < (init_canvas 4 4 '*').width ∧
      (2 : Nat) < (init_canvas 4 4 '*').height ∧
      getCell (draw_line (init_canvas 4 4 '*') 0 0 3 3) 2 2 =
        if ((2 : Int), (2 : Int)) ∈ linePts 0 0 3 3 then (init_canvas 4 4 '*').pen
        else getCell (init_canvas 4 4 '*') 2 2 :=
  ⟨by decide, by decide, by decide,
    (claim_C7_draw_line (init_canvas 4 4 '*') (by decide) 0 0 3 3 2 2
      (by decide) (by decide)).1⟩

end Paint

namespace Paint

theorem mem_linePts (x0 y0 x1 y1 p q : Int) :
    ((p, q) ∈ linePts x0 y0 x1 y1) ↔
      ((p = x0 ∧ q = y0) ∨
        ∃ j : Nat, j < (cmax ((x1 - x0).natAbs : Int) ((y1 - y0).natAbs : Int)).toNat ∧
          p = x0 + Int.tdiv (((j : Int) + 1) * (x1 - x0))
            (cmax ((x1 - x0).natAbs : Int) ((y1 - y0).natAbs : Int)) ∧
          q = y0 + Int.tdiv (((j : Int) + 1) * (y1 - y0))
            (cmax ((x1 - x0).natAbs : Int) ((y1 - y0).natAbs : Int))) := by
  simp only [linePts, List.mem_cons, List.mem_map, List.mem_range, Prod.mk.injEq]
  constructor
  · rintro (⟨hp, hq⟩ | ⟨j, hj, hp, hq⟩)
    · exact Or.inl ⟨hp, hq⟩
    · exact Or.inr ⟨j, hj, hp.symm, hq.symm⟩
  · rintro (⟨hp, hq⟩ | ⟨j, hj, hp, hq⟩)
    · exact Or.inl ⟨hp, hq⟩
    · exact Or.inr ⟨j, hj, hp.symm, hq.symm⟩

end Paint

namespace Paint

theorem linePts_horiz (x0 y0 x1 p q : Int) (hle : x0 ≤ x1) :
    ((p, q) ∈ linePts x0 y0 x1 y0) ↔ (x0 ≤ p ∧ p ≤ x1 ∧ q = y0) := by
  have h0 : ((x1 - x0).natAbs : Int) = x1 - x0 := Int.natAbs_of_nonneg (by omega)
  have hcm : cmax ((x1 - x0).natAbs : Int) ((y0 - y0).natAbs : Int) = x1 - x0 := by
    unfold cmax
    simp only [sub_self, Int.natAbs_zero, Nat.cast_zero, h0]
    split <;> omega
  rw [mem_linePts, hcm]
  constructor
  · rintro (⟨hp, hq⟩ | ⟨j, hj, hp, hq⟩)
    · omega
    · have hnz : x1 - x0 ≠ 0 := by omega
      rw [Int.mul_tdiv_cancel _ hnz] at hp
      rw [sub_self, mul_zero, Int.zero_tdiv, add_zero] at hq
      omega
  · rintro ⟨h1, h2, h3⟩
    by_cases hpe : p = x0
    · exact Or.inl ⟨hpe, h3⟩
    · right
      have hnz : x1 - x0 ≠ 0 := by omega
      refine ⟨(p - x0 - 1).toNat, by omega, ?_, ?_⟩
      · have hc : (((p - x0 - 1).toNat : Int) + 1) = p - x0 := by omega
        rw [hc, Int.mul_tdiv_cancel _ hnz]
        omega
      · rw [sub_self, mul_zero, Int.zero_tdiv, add_zero]
        omega

theorem linePts_vert (x0 y0 y1 p q : Int) (hle : y0 ≤ y1) :
    ((p, q) ∈ linePts x0 y0 x0 y1) ↔ (p = x0 ∧ y0 ≤ q ∧ q ≤ y1) := by
  have h0 : ((y1 - y0).natAbs : Int) = y1 - y0 := Int.natAbs_of_nonneg (by omega)
  have hcm : cmax ((x0 - x0).natAbs : Int) ((y1 - y0).natAbs : Int) = y1 - y0 := by
    unfold cmax
    simp only [sub_self, Int.natAbs_zero, Nat.cast_zero, h0]
    split <;> omega
  rw [mem_linePts, hcm]
  constructor
  · rintro (⟨hp, hq⟩ | ⟨j, hj, hp, hq⟩)
    · omega
    · have hnz : y1 - y0 ≠ 0 := by omega
      rw [Int.mul_tdiv_cancel _ hnz] at hq
      rw [sub_self, mul_zero, Int.zero_tdiv, add_zero] at hp
      omega
  · rintro ⟨h1, h2, h3⟩
    by_cases hqe : q = y0
    · exact Or.inl ⟨h1, hqe⟩
    · right
      have hnz : y1 - y0 ≠ 0 := by omega
      refine ⟨(q - y0 - 1).toNat, by omega, ?_, ?_⟩
      · rw [sub_self, mul_zero, Int.zero_tdiv, add_zero]
        omega
      · have hc : (((q - y0 - 1).toNat : Int) + 1) = q - y0 := by omega
        rw [hc, Int.mul_tdiv_cancel _ hnz]
        omega

end Paint

namespace Paint

/-- C8: draw_rect leaves every cell unchanged when w <= 0 or h <= 0;
otherwise it draws, via draw_line, exactly the four outline segments of
the rectangle spanning (x0,y0) to (x0+w-1,y0+h-1): an in-bounds cell
holds the pen exactly when it lies on that outline, and every other cell,
interior cells included, keeps its previous content. -/
theorem claim_C8_draw_rect (c : Canvas) (h : wfC c) (x0 y0 w hh : Int) (cx cy : Nat)
    (hx : cx < c.width) (hy : cy < c.height) :
    (w ≤ 0 ∨ hh ≤ 0 → draw_rect c x0 y0 w hh = c)
  ∧ (0 < w → 0 < hh →
      getCell (draw_rect c x0 y0 w hh) cx cy =
        if (x0 ≤ (cx : Int) ∧ (cx : Int) ≤ x0 + w - 1 ∧
              ((cy : Int) = y0 ∨ (cy : Int) = y0 + hh - 1))
            ∨ (((cx : Int) = x0 ∨ (cx : Int) = x0 + w - 1) ∧
                y0 ≤ (cy : Int) ∧ (cy : Int) ≤ y0 + hh - 1)
        then c.pen else getCell c cx cy) := by
  constructor
  · intro hwh
    unfold draw_rect
    rw [if_pos hwh]
  · intro hw hhh
    unfold draw_rect
    rw [if_neg (by omega)]
    show getCell (draw_line (draw_line (draw_line (draw_line c x0 y0 (x0 + w - 1) y0)
        x0 (y0 + hh - 1) (x0 + w - 1) (y0 + hh - 1)) x0 y0 x0 (y0 + hh - 1))
        (x0 + w - 1) y0 (x0 + w - 1) (y0 + hh - 1)) cx cy = _
    have hwfA := wfC_draw_line c h x0 y0 (x0 + w - 1) y0
    have hwfB := wfC_draw_line _ hwfA x0 (y0 + hh - 1) (x0 + w - 1) (y0 + hh - 1)
    have hwfC3 := wfC_draw_line _ hwfB x0 y0 x0 (y0 + hh - 1)
    have hxA : cx < (draw_line c x0 y0 (x0 + w - 1) y0).width := by
      simp only [draw_line_width]; exact hx
    have hyA : cy < (draw_line c x0 y0 (x0 + w - 1) y0).height := by
      simp only [draw_line_height]; exact hy
    have hxB : cx < (draw_line (draw_line c x0 y0 (x0 + w - 1) y0)
        x0 (y0 + hh - 1) (x0 + w - 1) (y0 + hh - 1)).width := by
      simp only [draw_line_width]; exact hx
    have hyB : cy < (draw_line (draw_line c x0 y0 (x0 + w - 1) y0)
        x0 (y0 + hh - 1) (x0 + w - 1) (y0 + hh - 1)).height := by
      simp only [draw_line_height]; exact hy
    have hxC3 : cx < (draw_line (draw_line (draw_line c x0 y0 (x0 + w - 1) y0)
        x0 (y0 + hh - 1) (x0 + w - 1) (y0 + hh - 1)) x0 y0 x0 (y0 + hh - 1)).width := by
      simp only [draw_line_width]; exact hx
    have hyC3 : cy < (draw_line (draw_line (draw_line c x0 y0 (x0 + w - 1) y0)
        x0 (y0 + hh - 1) (x0 + w - 1) (y0 + hh - 1)) x0 y0 x0 (y0 + hh - 1)).height := by
      simp only [draw_line_height]; exact hy
    rw [getCell_draw_line _ hwfC3 (x0 + w - 1) y0 (x0 + w - 1) (y0 + hh - 1) cx cy hxC3 hyC3]
    rw [getCell_draw_line _ hwfB x0 y0 x0 (y0 + hh - 1) cx cy hxB hyB]
    rw [getCell_draw_line _ hwfA x0 (y0 + hh - 1) (x0 + w - 1) (y0 + hh - 1) cx cy hxA hyA]
    rw [getCell_draw_line c h x0 y0 (x0 + w - 1) y0 cx cy hx hy]
    simp only [draw_line_pen]
    have i4 := linePts_vert (x0 + w - 1) y0 (y0 + hh - 1) (cx : Int) (cy : Int) (by omega)
    have i3 := linePts_vert x0 y0 (y0 + hh - 1) (cx : Int) (cy : Int) (by omega)
    have i2 := linePts_horiz x0 (y0 + hh - 1) (x0 + w - 1) (cx : Int) (cy : Int) (by omega)
    have i1 := linePts_horiz x0 y0 (x0 + w - 1) (cx : Int) (cy : Int) (by omega)
    simp only [i4, i3, i2, i1]
    split_ifs <;> first | rfl | omega

/-- Witness for claim_C8_draw_rect on a 10 x 5 canvas and rect 1 1 3 2. -/
theorem claim_C8_draw_rect_witness :
    wfC (init_canvas 10 5 '*') ∧ (2 : Nat) < (init_canvas 10 5 '*').width ∧
      (2 : Nat) < (init_canvas 10 5 '*').height ∧ (0 : Int) < 3 ∧ (0 : Int) < 2 ∧
      getCell (draw_rect (init_canvas 10 5 '*') 1 1 3 2) 2 2 =
        if ((1 : Int) ≤ (2 : Int) ∧ (2 : Int) ≤ 1 + 3 - 1 ∧
              ((2 : Int) = 1 ∨ (2 : Int) = 1 + 2 - 1))
            ∨ (((2 : Int) = 1 ∨ (2 : Int) = 1 + 3 - 1) ∧
                (1 : Int) ≤ (2 : Int) ∧ (2 : Int) ≤ 1 + 2 - 1)
        then (init_canvas 10 5 '*').pen else getCell (init_canvas 10 5 '*') 2 2 :=
  ⟨by decide, by decide, by decide, by decide, by decide,
    (claim_C8_draw_rect (init_canvas 10 5 '*') (by decide) 1 1 3 2 2 2
      (by decide) (by decide)).2 (by decide) (by decide)⟩

end Paint

namespace Paint

theorem splitTokGo_spec (l : List Char) : ∀ acc : List Char, acc ≠ [] →
    splitTokGo l acc =
      (acc.reverse ++ l.takeWhile (fun d => d ≠ ' ')) ::
        splitTokGo (l.dropWhile (fun d => d ≠ ' ')) [] := by
  induction l with
  | nil => intro acc h; simp [splitTokGo, h]
  | cons c rest ih =>
    intro acc h
    by_cases hc : c = ' '
    · subst hc
      simp [splitTokGo, h]
    · simp only [splitTokGo, if_neg hc]
      rw [ih (c :: acc) (by simp)]
      simp [hc]

theorem splitTok_nil : splitTok [] = [] := rfl

theorem splitTok_cons_space (rest : List Char) : splitTok (' ' :: rest) = splitTok rest := by
  simp [splitTok, splitTokGo]

theorem splitTok_cons (c : Char) (rest : List Char) (h : c ≠ ' ') :
    splitTok (c :: rest) =
      (c :: rest.takeWhile (fun d => d ≠ ' ')) :: splitTok (rest.dropWhile (fun d => d ≠ ' ')) := by
  unfold splitTok
  simp only [splitTokGo, if_neg h]
  rw [splitTokGo_spec rest (c :: []) (by simp)]
  simp

end Paint

namespace Paint

theorem interpret_default (trig : Trig) (fs : FileSys) (cmd : List Char) (st : PState)
    (v : List Char) (args : List (List Char))
    (htok : splitTok (chop cmd) = v :: args)
    (hv1 : v ≠ "load".toList) (hv2 : v ≠ "save".toList) (hv3 : v ≠ "undo".toList) :
    interpret_command trig fs cmd st =
      ((decode_tokens (v :: args)).1,
        { st with canvas := apply_action trig (decode_tokens (v :: args)).2 st.canvas }) := by
  unfold interpret_command
  rw [htok]
  dsimp only
  rw [if_neg hv1, if_neg hv2, if_neg hv3]
  rfl

theorem interpret_undo_eq (trig : Trig) (fs : FileSys) (st : PState) :
    interpret_command trig fs ("undo\n".toList) st =
      (match st.history with
        | [] => (Result.NOCOMMAND, { st with canvas := reset_canvas st.canvas })
        | _ :: _ =>
          (Result.UNDO,
            { canvas := undo_replay trig st.history (reset_canvas st.canvas),
              history := st.history.dropLast })) := rfl

theorem interpret_load_eq (trig : Trig) (fs : FileSys) (cmd : List Char) (st : PState)
    (fopt : Option (List Char))
    (htok : splitTok (chop cmd) = "load".toList :: fopt.toList) :
    interpret_command trig fs cmd st = load_history trig fs fopt st := by
  cases fopt with
  | none =>
    unfold interpret_command
    rw [htok]
    dsimp only [Option.toList]
    rw [if_pos rfl]
  | some f =>
    unfold interpret_command
    rw [htok]
    dsimp only [Option.toList]
    rw [if_pos rfl, if_neg (fun hq : ([] : List (List Char)) ≠ [] => hq rfl)]

theorem load_history_none (trig : Trig) (fs : FileSys) (filename : Option (List Char))
    (st : PState) (h : fs (filename.getD ("history.txt".toList)) = none) :
    load_history trig fs filename st = (Result.ERRFILE, st) := by
  unfold load_history
  dsimp only
  rw [h]

theorem load_history_some (trig : Trig) (fs : FileSys) (filename : Option (List Char))
    (st : PState) (lines : List (List Char))
    (h : fs (filename.getD ("history.txt".toList)) = some lines) :
    load_history trig fs filename st =
      loadLines trig lines { st with canvas := reset_canvas st.canvas } := by
  unfold load_history
  dsimp only
  rw [h]

theorem decode_chpen (p0 : Char) (ptail : List Char) (rest : List (List Char)) :
    decode_tokens ("chpen".toList :: (p0 :: ptail) :: rest) =
      (if p0 = ' ' ∨ p0 = '\t' ∨ p0 = '\n' then (Result.ERRLACKARGS, CAction.skip)
       else if ptail ≠ [] then (Result.ERRLACKARGS, CAction.skip)
       else if rest ≠ [] then (Result.UNKNOWN, CAction.skip)
       else (Result.CHPEN, CAction.chpen p0)) := by
  unfold decode_tokens
  dsimp only
  rw [if_pos rfl]

theorem decode_line (a0 a1 a2 a3 : List Char) (extra : List (List Char)) :
    decode_tokens ("line".toList :: a0 :: a1 :: a2 :: a3 :: extra) =
      (match parseIntFull a0, parseIntFull a1, parseIntFull a2, parseIntFull a3 with
        | some v0, some v1, some v2, some v3 => (Result.LINE, CAction.line v0 v1 v2 v3)
        | _, _, _, _ => (Result.ERRNONINT, CAction.skip)) := by
  unfold decode_tokens
  dsimp only
  rw [if_neg (by decide), if_neg (by decide), if_neg (by decide), if_pos rfl]

theorem decode_rect (a0 a1 a2 a3 : List Char) (extra : List (List Char)) :
    decode_tokens ("rect".toList :: a0 :: a1 :: a2 :: a3 :: extra) =
      (match parseIntFull a0, parseIntFull a1, parseIntFull a2, parseIntFull a3 with
        | some v0, some v1, some v2, some v3 => (Result.RECT, CAction.rect v0 v1 v2 v3)
        | _, _, _, _ => (Result.ERRNONINT, CAction.skip)) := by
  unfold decode_tokens
  dsimp only
  rw [if_neg (by decide), if_pos rfl]

theorem decode_circle (a0 a1 a2 : List Char) (extra : List (List Char)) :
    decode_tokens ("circle".toList :: a0 :: a1 :: a2 :: extra) =
      (match parseIntFull a0, parseIntFull a1, parseIntFull a2 with
        | some v0, some v1, some v2 => (Result.CIRCLE, CAction.circle v0 v1 v2)
        | _, _, _ => (Result.ERRNONINT, CAction.skip)) := by
  unfold decode_tokens
  dsimp only
  rw [if_neg (by decide), if_neg (by decide), if_pos rfl]

end Paint

namespace Paint

/-- C3 counterexample: undo on an empty history is NOT mutation-free; the
C code resets the canvas before the emptiness test, so a set cell is
blanked even though NOCOMMAND is returned. -/
theorem claim_C3_counterexample :
    (interpret_command (fun _ _ => (0, 0)) (fun _ => none) ("undo\n".toList)
        { canvas := draw_line (init_canvas 2 2 '*') 0 0 0 0, history := [] }).1 =
      Result.NOCOMMAND
    ∧ getCell ((interpret_command (fun _ _ => (0, 0)) (fun _ => none) ("undo\n".toList)
        { canvas := draw_line (init_canvas 2 2 '*') 0 0 0 0, history := [] }).2).canvas 0 0 ≠
        getCell (draw_line (init_canvas 2 2 '*') 0 0 0 0) 0 0 := by decide

/-- C3 amended: undo with an empty History returns NOCOMMAND and leaves
pen and History unchanged, but the canvas is reset to all-blank cells
first (the reset precedes the emptiness test in the code); in a live
session the canvas is already blank whenever the history is empty, so no
difference is observable there. -/
theorem claim_C3_amended (trig : Trig) (fs : FileSys) (st : PState)
    (h : st.history = []) :
    interpret_command trig fs ("undo\n".toList) st =
      (Result.NOCOMMAND, { st with canvas := reset_canvas st.canvas }) := by
  rw [interpret_undo_eq, h]

/-- Witness for claim_C3_amended. -/
theorem claim_C3_amended_witness :
    interpret_command (fun _ _ => (0, 0)) (fun _ => none) ("undo\n".toList)
        { canvas := init_canvas 2 2 '*', history := [] } =
      (Result.NOCOMMAND, { canvas := reset_canvas (init_canvas 2 2 '*'), history := [] }) :=
  claim_C3_amended (fun _ _ => (0, 0)) (fun _ => none)
    { canvas := init_canvas 2 2 '*', history := [] } rfl

/-- C10: at startup main pushes the command chpen * as the first History
entry before any user input, so History is non-empty at the first prompt
and a first undo returns UNDO (not NOCOMMAND), leaving an all-blank
canvas with pen still the asterisk and an empty history. -/
theorem claim_C10_initial_undo (trig : Trig) (fs : FileSys) (w h : Nat) :
    (initState w h).history = ["chpen *\n".toList] ∧
    interpret_command trig fs ("undo\n".toList) (initState w h) =
      (Result.UNDO, { canvas := init_canvas w h '*', history := [] }) :=
  ⟨rfl, rfl⟩

/-- C5 counterexample: when the file cannot be opened, load returns
ERRFILE with the canvas left exactly as it was, NOT reset: the C code
opens the file before resetting the canvas. -/
theorem claim_C5_counterexample :
    (interpret_command (fun _ _ => (0, 0)) (fun _ => none) ("load\n".toList)
        { canvas := draw_line (init_canvas 2 2 '*') 0 0 0 0, history := [] }) =
      (Result.ERRFILE, { canvas := draw_line (init_canvas 2 2 '*') 0 0 0 0, history := [] })
    ∧ getCell (draw_line (init_canvas 2 2 '*') 0 0 0 0) 0 0 ≠ ' ' := by decide

/-- C5 amended: load resolves the target name (default history.txt) and
attempts to open it FIRST: when the open fails it returns ERRFILE with
the whole state, canvas included, unchanged; only after a successful open
is the canvas reset and the file processed line by line. -/
theorem claim_C5_amended (trig : Trig) (fs : FileSys) (st : PState) (s : List Char)
    (fopt : Option (List Char))
    (htok : splitTok (chop s) = "load".toList :: fopt.toList) :
    (fs (fopt.getD ("history.txt".toList)) = none →
      interpret_command trig fs s st = (Result.ERRFILE, st))
  ∧ (∀ lines, fs (fopt.getD ("history.txt".toList)) = some lines →
      interpret_command trig fs s st =
        loadLines trig lines { st with canvas := reset_canvas st.canvas }) := by
  constructor
  · intro hnone
    rw [interpret_load_eq trig fs s st fopt htok, load_history_none trig fs fopt st hnone]
  · intro lines hsome
    rw [interpret_load_eq trig fs s st fopt htok,
      load_history_some trig fs fopt st lines hsome]

/-- Witness for claim_C5_amended. -/
theorem claim_C5_amended_witness :
    interpret_command (fun _ _ => (0, 0)) (fun _ => none) ("load\n".toList) (initState 2 2) =
      (Result.ERRFILE, initState 2 2) :=
  (claim_C5_amended (fun _ _ => (0, 0)) (fun _ => none) (initState 2 2)
    ("load\n".toList) none (by decide)).1 rfl

end Paint

namespace Paint

/-- C4 counterexample: a recognized drawing verb with extra trailing
tokens is NOT rejected: line 1 2 3 4 5 returns LINE and draws, instead of
the claimed UNKNOWN with no mutation. -/
theorem claim_C4_counterexample :
    (interpret_command (fun _ _ => (0, 0)) (fun _ => none) ("line 1 2 3 4 5\n".toList)
        (initState 5 5)).1 = Result.LINE
    ∧ (interpret_command (fun _ _ => (0, 0)) (fun _ => none) ("line 1 2 3 4 5\n".toList)
        (initState 5 5)).2.canvas ≠ (initState 5 5).canvas := by decide

/-- C4 amended: extra trailing tokens yield UNKNOWN (and no mutation)
only for chpen (with a valid single-character pen argument) and load; the
drawing verbs line, rect and circle ignore extra trailing tokens and
execute normally on their leading arguments. -/
theorem claim_C4_amended (trig : Trig) (fs : FileSys) :
    (∀ (st : PState) (s : List Char) (p0 : Char) (extra : List (List Char)),
        splitTok (chop s) = "chpen".toList :: (p0 :: []) :: extra → extra ≠ [] →
        ¬ (p0 = ' ' ∨ p0 = '\t' ∨ p0 = '\n') →
        interpret_command trig fs s st = (Result.UNKNOWN, st))
  ∧ (∀ (st : PState) (s : List Char) (f g : List Char) (extra : List (List Char)),
        splitTok (chop s) = "load".toList :: f :: g :: extra →
        interpret_command trig fs s st = (Result.UNKNOWN, st))
  ∧ (∀ (st : PState) (s : List Char) (a0 a1 a2 a3 : List Char) (extra : List (List Char))
        (v0 v1 v2 v3 : Int),
        splitTok (chop s) = "line".toList :: a0 :: a1 :: a2 :: a3 :: extra → extra ≠ [] →
        parseIntFull a0 = some v0 → parseIntFull a1 = some v1 →
        parseIntFull a2 = some v2 → parseIntFull a3 = some v3 →
        interpret_command trig fs s st =
          (Result.LINE, { st with canvas := draw_line st.canvas v0 v1 v2 v3 }))
  ∧ (∀ (st : PState) (s : List Char) (a0 a1 a2 a3 : List Char) (extra : List (List Char))
        (v0 v1 v2 v3 : Int),
        splitTok (chop s) = "rect".toList :: a0 :: a1 :: a2 :: a3 :: extra → extra ≠ [] →
        parseIntFull a0 = some v0 → parseIntFull a1 = some v1 →
        parseIntFull a2 = some v2 → parseIntFull a3 = some v3 →
        interpret_command trig fs s st =
          (Result.RECT, { st with canvas := draw_rect st.canvas v0 v1 v2 v3 }))
  ∧ (∀ (st : PState) (s : List Char) (a0 a1 a2 : List Char) (extra : List (List Char))
        (v0 v1 v2 : Int),
        splitTok (chop s) = "circle".toList :: a0 :: a1 :: a2 :: extra → extra ≠ [] →
        parseIntFull a0 = some v0 → parseIntFull a1 = some v1 →
        parseIntFull a2 = some v2 →
        interpret_command trig fs s st =
          (Result.CIRCLE, { st with canvas := draw_circle trig st.canvas v0 v1 v2 })) := by
  refine ⟨?_, ?_, ?_, ?_, ?_⟩
  · intro st s p0 extra htok hextra hp0
    rw [interpret_default trig fs s st _ _ htok (by decide) (by decide) (by decide),
      decode_chpen]
    rw [if_neg hp0, if_neg (fun hq : ([] : List Char) ≠ [] => hq rfl), if_pos hextra]
    rfl
  · intro st s f g extra htok
    unfold interpret_command
    rw [htok]
    dsimp only
    rw [if_pos rfl, if_pos (List.cons_ne_nil g extra)]
  · intro st s a0 a1 a2 a3 extra v0 v1 v2 v3 htok hextra h0 h1 h2 h3
    rw [interpret_default trig fs s st _ _ htok (by decide) (by decide) (by decide),
      decode_line, h0, h1, h2, h3]
    rfl
  · intro st s a0 a1 a2 a3 extra v0 v1 v2 v3 htok hextra h0 h1 h2 h3
    rw [interpret_default trig fs s st _ _ htok (by decide) (by decide) (by decide),
      decode_rect, h0, h1, h2, h3]
    rfl
  · intro st s a0 a1 a2 extra v0 v1 v2 htok hextra h0 h1 h2
    rw [interpret_default trig fs s st _ _ htok (by decide) (by decide) (by decide),
      decode_circle, h0, h1, h2]
    rfl

/-- Witness for claim_C4_amended: line with an extra 5th argument draws,
chpen with an extra token is UNKNOWN. -/
theorem claim_C4_amended_witness :
    interpret_command (fun _ _ => (0, 0)) (fun _ => none) ("line 0 0 1 1 9\n".toList)
        (initState 3 3) =
      (Result.LINE,
        { (initState 3 3) with canvas := draw_line (initState 3 3).canvas 0 0 1 1 })
    ∧ interpret_command (fun _ _ => (0, 0)) (fun _ => none) ("chpen # x\n".toList)
        (initState 3 3) = (Result.UNKNOWN, initState 3 3) :=
  ⟨(claim_C4_amended (fun _ _ => (0, 0)) (fun _ => none)).2.2.1 (initState 3 3)
      ("line 0 0 1 1 9\n".toList) ("0".toList) ("0".toList) ("1".toList) ("1".toList)
      [("9".toList)] 0 0 1 1 (by decide) (by decide) (by decide) (by decide) (by decide)
      (by decide),
    (claim_C4_amended (fun _ _ => (0, 0)) (fun _ => none)).1 (initState 3 3)
      ("chpen # x\n".toList) '#' [("x".toList)] (by decide) (by decide) (by decide)⟩

/-- C9: a drawing-verb command line carrying its full argument count in
which some required numeric token does not parse in full as a base-10
integer returns ERRNONINT, and neither the canvas nor the history is
mutated, no matter how the other tokens parse. -/
theorem claim_C9_errnonint (trig : Trig) (fs : FileSys) :
    (∀ (st : PState) (s : List Char) (a0 a1 a2 a3 : List Char) (extra : List (List Char)),
        splitTok (chop s) = "line".toList :: a0 :: a1 :: a2 :: a3 :: extra →
        (parseIntFull a0 = none ∨ parseIntFull a1 = none ∨
          parseIntFull a2 = none ∨ parseIntFull a3 = none) →
        interpret_command trig fs s st = (Result.ERRNONINT, st))
  ∧ (∀ (st : PState) (s : List Char) (a0 a1 a2 a3 : List Char) (extra : List (List Char)),
        splitTok (chop s) = "rect".toList :: a0 :: a1 :: a2 :: a3 :: extra →
        (parseIntFull a0 = none ∨ parseIntFull a1 = none ∨
          parseIntFull a2 = none ∨ parseIntFull a3 = none) →
        interpret_command trig fs s st = (Result.ERRNONINT, st))
  ∧ (∀ (st : PState) (s : List Char) (a0 a1 a2 : List Char) (extra : List (List Char)),
        splitTok (chop s) = "circle".toList :: a0 :: a1 :: a2 :: extra →
        (parseIntFull a0 = none ∨ parseIntFull a1 = none ∨ parseIntFull a2 = none) →
        interpret_command trig fs s st = (Result.ERRNONINT, st)) := by
  refine ⟨?_, ?_, ?_⟩
  · intro st s a0 a1 a2 a3 extra htok hbad
    rw [interpret_default trig fs s st _ _ htok (by decide) (by decide) (by decide),
      decode_line]
    cases h0 : parseIntFull a0 <;> cases h1 : parseIntFull a1 <;>
      cases h2 : parseIntFull a2 <;> cases h3 : parseIntFull a3 <;>
      first | rfl | simp_all
  · intro st s a0 a1 a2 a3 extra htok hbad
    rw [interpret_default trig fs s st _ _ htok (by decide) (by decide) (by decide),
      decode_rect]
    cases h0 : parseIntFull a0 <;> cases h1 : parseIntFull a1 <;>
      cases h2 : parseIntFull a2 <;> cases h3 : parseIntFull a3 <;>
      first | rfl | simp_all
  · intro st s a0 a1 a2 extra htok hbad
    rw [interpret_default trig fs s st _ _ htok (by decide) (by decide) (by decide),
      decode_circle]
    cases h0 : parseIntFull a0 <;> cases h1 : parseIntFull a1 <;>
      cases h2 : parseIntFull a2 <;> first | rfl | simp_all

/-- Witness for claim_C9_errnonint: line 1 2 3abc 4. -/
theorem claim_C9_errnonint_witness :
    interpret_command (fun _ _ => (0, 0)) (fun _ => none) ("line 1 2 3abc 4\n".toList)
        (initState 3 3) = (Result.ERRNONINT, initState 3 3) :=
  (claim_C9_errnonint (fun _ _ => (0, 0)) (fun _ => none)).1 (initState 3 3)
    ("line 1 2 3abc 4\n".toList) ("1".toList) ("2".toList) ("3abc".toList) ("4".toList)
    [] (by decide) (by decide)

end Paint

namespace Paint

theorem undo_replay_eq_replayFold (trig : Trig) (his : List (List Char)) :
    ∀ c : Canvas, undo_replay trig his c = replayFold trig his.dropLast c := by
  induction his with
  | nil => intro c; rfl
  | cons e rest ih =>
    intro c
    cases rest with
    | nil => rfl
    | cons e2 rest2 =>
      show undo_replay trig (e2 :: rest2) ((interp_canvas trig e c).2) =
        replayFold trig ((e :: e2 :: rest2).dropLast) c
      rw [ih]
      rfl

/-- C1: for every non-empty History (whose entries are recognized
mutating commands, the History invariant of the spec), undo resets the
canvas to all-blank cells, replays every history entry except the last in
original order through the replay-mode interpreter (which never appends
to the history), removes the last entry, and returns UNDO. -/
theorem claim_C1_undo (trig : Trig) (fs : FileSys) (st : PState)
    (hne : st.history ≠ [])
    (hmut : ∀ e ∈ st.history, isMutResult (lineResult e) = true) :
    interpret_command trig fs ("undo\n".toList) st =
      (Result.UNDO,
        { canvas := replayFold trig st.history.dropLast (reset_canvas st.canvas),
          history := st.history.dropLast }) := by
  rw [interpret_undo_eq]
  match hh : st.history with
  | [] => exact absurd hh hne
  | e :: rest =>
    rw [undo_replay_eq_replayFold]

/-- Witness for claim_C1_undo: history [chpen #, line 0 0 1 1], undo
leaves the replay of chpen # alone on a blank canvas. -/
theorem claim_C1_undo_witness :
    interpret_command (fun _ _ => (0, 0)) (fun _ => none) ("undo\n".toList)
        { canvas := draw_line (init_canvas 2 2 '#') 0 0 1 1,
          history := ["chpen #\n".toList, "line 0 0 1 1\n".toList] } =
      (Result.UNDO,
        { canvas := init_canvas 2 2 '#', history := ["chpen #\n".toList] }) :=
  (claim_C1_undo (fun _ _ => (0, 0)) (fun _ => none) _
    (by decide) (by decide)).trans (by decide)

end Paint

namespace Paint

theorem decode_skip_or_mut (toks : List (List Char)) :
    (decode_tokens toks).2 = CAction.skip ∨ isMutResult (decode_tokens toks).1 = true := by
  unfold decode_tokens
  repeat' split
  all_goals first | exact Or.inl rfl | exact Or.inr rfl

theorem interp_canvas_fst (trig : Trig) (s : List Char) (c : Canvas) :
    (interp_canvas trig s c).1 = lineResult s := rfl

theorem interp_canvas_err_snd (trig : Trig) (s : List Char) (c : Canvas)
    (h : isMutResult (lineResult s) = false) :
    (interp_canvas trig s c).2 = c := by
  rcases decode_skip_or_mut (splitTok (chop s)) with hskip | hmut2
  · show apply_action trig (decode_tokens (splitTok (chop s))).2 c = c
    rw [hskip]
    rfl
  · exact absurd hmut2 (by unfold lineResult at h; rw [h]; exact Bool.false_ne_true)

theorem loadLines_nil (trig : Trig) (st : PState) :
    loadLines trig [] st = (Result.LOAD, st) := rfl

theorem replayFold_nil (trig : Trig) (c : Canvas) : replayFold trig [] c = c := rfl

theorem replayFold_cons (trig : Trig) (e : List Char) (ls : List (List Char)) (c : Canvas) :
    replayFold trig (e :: ls) c = replayFold trig ls ((interp_canvas trig e c).2) := rfl

theorem loadLines_cons (trig : Trig) (buf : List Char) (rest : List (List Char)) (st : PState) :
    loadLines trig (buf :: rest) st =
      (if bufsize ≤ buf.length then (Result.ERRFILE, st)
       else if loadGuard buf then
        (if (interp_canvas trig buf st.canvas).1 = Result.ERRNONINT ∨
            (interp_canvas trig buf st.canvas).1 = Result.ERRLACKARGS
         then ((interp_canvas trig buf st.canvas).1,
            { st with canvas := (interp_canvas trig buf st.canvas).2 })
         else loadLines trig rest
            { canvas := (interp_canvas trig buf st.canvas).2,
              history := st.history ++ [buf] })
       else loadLines trig rest st) := rfl

theorem loadLines_ok (trig : Trig) (lines : List (List Char)) :
    ∀ st : PState,
      (∀ l ∈ lines, l.length < bufsize ∧
        (loadGuard l = true →
          lineResult l ≠ Result.ERRNONINT ∧ lineResult l ≠ Result.ERRLACKARGS)) →
      loadLines trig lines st =
        (Result.LOAD,
          { canvas := replayFold trig (lines.filter loadGuard) st.canvas,
            history := st.history ++ lines.filter loadGuard }) := by
  induction lines with
  | nil => intro st hok; simp [loadLines_nil, replayFold]
  | cons l rest ih =>
    intro st hok
    obtain ⟨hlen, hres⟩ := hok l (List.mem_cons_self l rest)
    have hok2 := fun l2 hm => hok l2 (List.mem_cons_of_mem l hm)
    rw [loadLines_cons, if_neg (by omega)]
    by_cases hg : loadGuard l = true
    · obtain ⟨he1, he2⟩ := hres hg
      rw [if_pos hg, if_neg (by rw [interp_canvas_fst]; tauto), ih _ hok2]
      simp [List.filter_cons, hg, replayFold_cons, List.append_assoc]
    · rw [if_neg hg, ih _ hok2]
      simp only [List.filter_cons]
      rw [if_neg (by simp [hg])]

end Paint

namespace Paint

theorem loadLines_abort (trig : Trig) (pre : List (List Char)) :
    ∀ (st : PState) (bad : List Char) (post : List (List Char)),
      (∀ l ∈ pre, l.length < bufsize ∧
        (loadGuard l = true →
          lineResult l ≠ Result.ERRNONINT ∧ lineResult l ≠ Result.ERRLACKARGS)) →
      bad.length < bufsize → loadGuard bad = true →
      (lineResult bad = Result.ERRNONINT ∨ lineResult bad = Result.ERRLACKARGS) →
      loadLines trig (pre ++ bad :: post) st =
        (lineResult bad,
          { canvas := replayFold trig (pre.filter loadGuard) st.canvas,
            history := st.history ++ pre.filter loadGuard }) := by
  induction pre with
  | nil =>
    intro st bad post hok hlen hg herr
    rw [List.nil_append, loadLines_cons, if_neg (by omega), if_pos hg,
      if_pos (by rw [interp_canvas_fst]; exact herr)]
    have hskip : (interp_canvas trig bad st.canvas).2 = st.canvas := by
      apply interp_canvas_err_snd
      rcases herr with h | h <;> rw [h] <;> rfl
    rw [interp_canvas_fst, hskip]
    simp [replayFold_nil]
  | cons l rest ih =>
    intro st bad post hok hlen hg herr
    obtain ⟨hlen2, hres⟩ := hok l (List.mem_cons_self l rest)
    have hok2 := fun l2 hm => hok l2 (List.mem_cons_of_mem l hm)
    rw [List.cons_append, loadLines_cons, if_neg (by omega)]
    by_cases hgl : loadGuard l = true
    · obtain ⟨he1, he2⟩ := hres hgl
      rw [if_pos hgl, if_neg (by rw [interp_canvas_fst]; tauto),
        ih _ _ _ hok2 hlen hg herr]
      simp [List.filter_cons, hgl, replayFold_cons, List.append_assoc]
    · rw [if_neg hgl, ih _ _ _ hok2 hlen hg herr]
      simp only [List.filter_cons]
      rw [if_neg (by simp [hgl])]

theorem loadLines_overlength (trig : Trig) (pre : List (List Char)) :
    ∀ (st : PState) (bad : List Char) (post : List (List Char)),
      (∀ l ∈ pre, l.length < bufsize ∧
        (loadGuard l = true →
          lineResult l ≠ Result.ERRNONINT ∧ lineResult l ≠ Result.ERRLACKARGS)) →
      bufsize ≤ bad.length →
      loadLines trig (pre ++ bad :: post) st =
        (Result.ERRFILE,
          { canvas := replayFold trig (pre.filter loadGuard) st.canvas,
            history := st.history ++ pre.filter loadGuard }) := by
  induction pre with
  | nil =>
    intro st bad post hok hlen
    rw [List.nil_append, loadLines_cons, if_pos hlen]
    simp [replayFold_nil]
  | cons l rest ih =>
    intro st bad post hok hlen
    obtain ⟨hlen2, hres⟩ := hok l (List.mem_cons_self l rest)
    have hok2 := fun l2 hm => hok l2 (List.mem_cons_of_mem l hm)
    rw [List.cons_append, loadLines_cons, if_neg (by omega)]
    by_cases hgl : loadGuard l = true
    · obtain ⟨he1, he2⟩ := hres hgl
      rw [if_pos hgl, if_neg (by rw [interp_canvas_fst]; tauto),
        ih _ _ _ hok2 hlen]
      simp [List.filter_cons, hgl, replayFold_cons, List.append_assoc]
    · rw [if_neg hgl, ih _ _ _ hok2 hlen]
      simp only [List.filter_cons]
      rw [if_neg (by simp [hgl])]

/-- C6 counterexample: appending during load is NOT limited to successful
lines.  The file line chpen a b evaluates to UNKNOWN (an error, not a
success), yet load returns LOAD and the line is appended to the History. -/
theorem claim_C6_counterexample :
    (interpret_command (fun _ _ => (0, 0))
        (fun n => if n = "history.txt".toList then some ["chpen a b\n".toList] else none)
        ("load\n".toList) (initState 2 2)).1 = Result.LOAD
    ∧ ("chpen a b\n".toList) ∈ (interpret_command (fun _ _ => (0, 0))
        (fun n => if n = "history.txt".toList then some ["chpen a b\n".toList] else none)
        ("load\n".toList) (initState 2 2)).2.history
    ∧ lineResult ("chpen a b\n".toList) = Result.UNKNOWN := by decide

/-- C6 amended: during load, each line whose first token is one of line,
rect, circle, chpen is executed through the replay-mode interpreter and
appended to the rebuilt History unless the result is ERRNONINT or
ERRLACKARGS, in which case loading aborts immediately and returns that
error (appending is not restricted to successes: a recognized line with
result UNKNOWN is appended too); every other line is silently skipped
with no effect on canvas or history; an over-length line yields ERRFILE;
and when every line is processed, LOAD is returned. -/
theorem claim_C6_load_lines (trig : Trig) :
    (∀ (lines : List (List Char)) (st : PState),
      (∀ l ∈ lines, l.length < bufsize ∧
        (loadGuard l = true →
          lineResult l ≠ Result.ERRNONINT ∧ lineResult l ≠ Result.ERRLACKARGS)) →
      loadLines trig lines st =
        (Result.LOAD,
          { canvas := replayFold trig (lines.filter loadGuard) st.canvas,
            history := st.history ++ lines.filter loadGuard }))
  ∧ (∀ (pre : List (List Char)) (st : PState) (bad : List Char) (post : List (List Char)),
      (∀ l ∈ pre, l.length < bufsize ∧
        (loadGuard l = true →
          lineResult l ≠ Result.ERRNONINT ∧ lineResult l ≠ Result.ERRLACKARGS)) →
      bad.length < bufsize → loadGuard bad = true →
      (lineResult bad = Result.ERRNONINT ∨ lineResult bad = Result.ERRLACKARGS) →
      loadLines trig (pre ++ bad :: post) st =
        (lineResult bad,
          { canvas := replayFold trig (pre.filter loadGuard) st.canvas,
            history := st.history ++ pre.filter loadGuard }))
  ∧ (∀ (pre : List (List Char)) (st : PState) (bad : List Char) (post : List (List Char)),
      (∀ l ∈ pre, l.length < bufsize ∧
        (loadGuard l = true →
          lineResult l ≠ Result.ERRNONINT ∧ lineResult l ≠ Result.ERRLACKARGS)) →
      bufsize ≤ bad.length →
      loadLines trig (pre ++ bad :: post) st =
        (Result.ERRFILE,
          { canvas := replayFold trig (pre.filter loadGuard) st.canvas,
            history := st.history ++ pre.filter loadGuard })) :=
  ⟨fun lines st h => loadLines_ok trig lines st h,
   fun pre st bad post h1 h2 h3 h4 => loadLines_abort trig pre st bad post h1 h2 h3 h4,
   fun pre st bad post h1 h2 => loadLines_overlength trig pre st bad post h1 h2⟩

/-- Witness for claim_C6_load_lines: a drawing line plus a junk line load
to LOAD with only the drawing line appended and executed. -/
theorem claim_C6_load_lines_witness :
    loadLines (fun _ _ => (0, 0)) ["line 0 0 1 1\n".toList, "junk\n".toList] (initState 2 2) =
      (Result.LOAD,
        { canvas := draw_line (init_canvas 2 2 '*') 0 0 1 1,
          history := ["chpen *\n".toList, "line 0 0 1 1\n".toList] }) :=
  ((claim_C6_load_lines (fun _ _ => (0, 0))).1
    ["line 0 0 1 1\n".toList, "junk\n".toList] (initState 2 2) (by decide)).trans (by decide)

end Paint

namespace Paint

theorem takeWhile_append_of_dropWhile_ne_nil (p : Char → Bool) (rest : List Char) :
    ∀ l2 : List Char, rest.dropWhile p ≠ [] →
      (rest ++ l2).takeWhile p = rest.takeWhile p := by
  induction rest with
  | nil => intro l2 h; exact absurd rfl h
  | cons d rest2 ih =>
    intro l2 h
    by_cases hd : p d
    · rw [List.cons_append, List.takeWhile_cons, if_pos hd, List.takeWhile_cons, if_pos hd,
        ih l2 (by rwa [List.dropWhile_cons, if_pos hd] at h)]
    · rw [List.cons_append, List.takeWhile_cons, if_neg hd, List.takeWhile_cons, if_neg hd]

theorem dropWhile_append_of_dropWhile_ne_nil (p : Char → Bool) (rest : List Char) :
    ∀ l2 : List Char, rest.dropWhile p ≠ [] →
      (rest ++ l2).dropWhile p = rest.dropWhile p ++ l2 := by
  induction rest with
  | nil => intro l2 h; exact absurd rfl h
  | cons d rest2 ih =>
    intro l2 h
    by_cases hd : p d
    · rw [List.cons_append, List.dropWhile_cons, if_pos hd, List.dropWhile_cons, if_pos hd,
        ih l2 (by rwa [List.dropWhile_cons, if_pos hd] at h)]
    · rw [List.cons_append, List.dropWhile_cons, if_neg hd, List.dropWhile_cons, if_neg hd,
        List.cons_append]

theorem splitTok_append_head (n : Nat) :
    ∀ (l1 l2 t0 t1 : List Char) (ts : List (List Char)), l1.length ≤ n →
      splitTok l1 = t0 :: t1 :: ts →
      (splitTok (l1 ++ l2)).head? = some t0 := by
  induction n with
  | zero =>
    intro l1 l2 t0 t1 ts hn hs
    rcases l1 with _ | ⟨c, rest⟩
    · rw [splitTok_nil] at hs; cases hs
    · simp at hn
  | succ n ih =>
    intro l1 l2 t0 t1 ts hn hs
    rcases l1 with _ | ⟨c, rest⟩
    · rw [splitTok_nil] at hs; cases hs
    · by_cases hc : c = ' '
      · subst hc
        rw [splitTok_cons_space] at hs
        rw [List.cons_append, splitTok_cons_space]
        exact ih rest l2 t0 t1 ts (by simp at hn; omega) hs
      · rw [splitTok_cons c rest hc] at hs
        have hdw : rest.dropWhile (fun d => decide (d ≠ ' ')) ≠ [] := by
          intro hq
          rw [hq, splitTok_nil] at hs
          exact (List.cons.injEq _ _ _ _).mp hs |>.2 |> fun hh => by cases hh
        rw [List.cons_append, splitTok_cons c (rest ++ l2) hc,
          takeWhile_append_of_dropWhile_ne_nil _ rest l2 hdw]
        have := (List.cons.injEq _ _ _ _).mp hs
        rw [List.head?_cons, this.1]

end Paint

namespace Paint

theorem decode_mut_shape (toks : List (List Char))
    (h : isMutResult (decode_tokens toks).1 = true) :
    ∃ v t1 ts, toks = v :: t1 :: ts ∧
      (v = "line".toList ∨ v = "rect".toList ∨ v = "circle".toList ∨ v = "chpen".toList) := by
  unfold decode_tokens at h
  rcases toks with _ | ⟨v, args⟩
  · exact absurd h (by decide)
  · dsimp only at h
    by_cases h1 : v = "chpen".toList
    · rcases args with _ | ⟨p, rest⟩
      · rw [if_pos h1] at h
        exact absurd h (by decide)
      · exact ⟨v, p, rest, rfl, Or.inr (Or.inr (Or.inr h1))⟩
    · rw [if_neg h1] at h
      by_cases h2 : v = "rect".toList
      · rcases args with _ | ⟨a0, rest⟩
        · rw [if_pos h2] at h
          dsimp only at h
          exact absurd h (by decide)
        · exact ⟨v, a0, rest, rfl, Or.inr (Or.inl h2)⟩
      · rw [if_neg h2] at h
        by_cases h3 : v = "circle".toList
        · rcases args with _ | ⟨a0, rest⟩
          · rw [if_pos h3] at h
            dsimp only at h
            exact absurd h (by decide)
          · exact ⟨v, a0, rest, rfl, Or.inr (Or.inr (Or.inl h3))⟩
        · rw [if_neg h3] at h
          by_cases h4 : v = "line".toList
          · rcases args with _ | ⟨a0, rest⟩
            · rw [if_pos h4] at h
              dsimp only at h
              exact absurd h (by decide)
            · exact ⟨v, a0, rest, rfl, Or.inl h4⟩
          · rw [if_neg h4] at h
            by_cases h5 : v = "quit".toList
            · rw [if_pos h5] at h
              exact absurd h (by decide)
            · rw [if_neg h5] at h
              exact absurd h (by decide)

theorem mut_not_err (r : Result) (h : isMutResult r = true) :
    r ≠ Result.ERRNONINT ∧ r ≠ Result.ERRLACKARGS := by
  constructor <;> intro hq <;> subst hq <;> exact absurd h (by decide)

theorem loadGuard_of_mut (cmd : List Char) (h : isMutResult (lineResult cmd) = true) :
    loadGuard cmd = true := by
  obtain ⟨v, t1, ts, hshape, hv⟩ := decode_mut_shape (splitTok (chop cmd)) h
  have hne : cmd ≠ [] := by
    intro hq
    subst hq
    rw [show chop ([] : List Char) = [] from rfl, splitTok_nil] at hshape
    cases hshape
  have hhead : (splitTok cmd).head? = some v := by
    have hsplit : chop cmd ++ [cmd.getLast hne] = cmd := List.dropLast_append_getLast hne
    rw [← hsplit]
    exact splitTok_append_head (chop cmd).length (chop cmd) [cmd.getLast hne] v t1 ts
      (Nat.le_refl _) hshape
  unfold loadGuard
  rw [hhead]
  rcases hv with h1 | h1 | h1 | h1 <;> subst h1 <;> rfl

theorem loadLines_not_mut (trig : Trig) (lines : List (List Char)) :
    ∀ st : PState, isMutResult (loadLines trig lines st).1 = false := by
  induction lines with
  | nil => intro st; rfl
  | cons l rest ih =>
    intro st
    rw [loadLines_cons]
    split_ifs with h1 h2 h3
    · rfl
    · rcases h3 with h | h <;> rw [h] <;> rfl
    · exact ih _
    · exact ih _

theorem load_history_not_mut (trig : Trig) (fs : FileSys) (filename : Option (List Char))
    (st : PState) : isMutResult (load_history trig fs filename st).1 = false := by
  unfold load_history
  dsimp only
  cases hfs : fs (filename.getD ("history.txt".toList)) with
  | none => rfl
  | some lines => exact loadLines_not_mut trig lines _

theorem interpret_mut_step (trig : Trig) (fs : FileSys) (cmd : List Char) (st : PState)
    (h : isMutResult (interpret_command trig fs cmd st).1 = true) :
    interpret_command trig fs cmd st =
      (lineResult cmd, { st with canvas := (interp_canvas trig cmd st.canvas).2 }) := by
  rcases htok : splitTok (chop cmd) with _ | ⟨v, args⟩
  · exfalso
    have heq : interpret_command trig fs cmd st = (Result.UNKNOWN, st) := by
      unfold interpret_command
      rw [htok]
    rw [heq] at h
    simp [isMutResult] at h
  · by_cases hv1 : v = "load".toList
    · exfalso
      subst hv1
      rcases args with _ | ⟨f, rest⟩
      · have heq : interpret_command trig fs cmd st = load_history trig fs none st :=
          interpret_load_eq trig fs cmd st none (by rw [htok]; rfl)
        rw [heq, load_history_not_mut] at h
        cases h
      · rcases rest with _ | ⟨g, rest2⟩
        · have heq : interpret_command trig fs cmd st = load_history trig fs (some f) st :=
            interpret_load_eq trig fs cmd st (some f) (by rw [htok]; rfl)
          rw [heq, load_history_not_mut] at h
          cases h
        · have heq : interpret_command trig fs cmd st = (Result.UNKNOWN, st) := by
            unfold interpret_command
            rw [htok]
            dsimp only
            rw [if_pos rfl, if_pos (List.cons_ne_nil g rest2)]
          rw [heq] at h
          simp [isMutResult] at h
    · by_cases hv2 : v = "save".toList
      · exfalso
        subst hv2
        have heq : interpret_command trig fs cmd st = (Result.SAVE, st) := by
          unfold interpret_command
          rw [htok]
          dsimp only
          rw [if_neg (by decide), if_pos rfl]
        rw [heq] at h
        simp [isMutResult] at h
      · by_cases hv3 : v = "undo".toList
        · exfalso
          subst hv3
          have heq : interpret_command trig fs cmd st =
              (match st.history with
                | [] => (Result.NOCOMMAND, { st with canvas := reset_canvas st.canvas })
                | _ :: _ =>
                  (Result.UNDO,
                    { canvas := undo_replay trig st.history (reset_canvas st.canvas),
                      history := st.history.dropLast })) := by
            unfold interpret_command
            rw [htok]
            dsimp only
            rw [if_neg (by decide), if_neg (by decide), if_pos rfl]
          rw [heq] at h
          cases hh : st.history with
          | nil => rw [hh] at h; simp [isMutResult] at h
          | cons e rest => rw [hh] at h; simp [isMutResult] at h
        · rw [interpret_default trig fs cmd st v args htok hv1 hv2 hv3]
          unfold lineResult interp_canvas interp_tokens
          rw [htok]

end Paint

namespace Paint

theorem session_accepted (trig : Trig) (fs : FileSys) (cmds : List (List Char)) :
    ∀ st : PState, accepted_mutating trig fs st cmds = true →
      cmds.foldl (session_step trig fs) st =
        { canvas := replayFold trig cmds st.canvas, history := st.history ++ cmds } := by
  induction cmds with
  | nil =>
    intro st h
    simp [replayFold_nil]
  | cons cmd rest ih =>
    intro st h
    rw [accepted_mutating, Bool.and_eq_true] at h
    obtain ⟨h1, h2⟩ := h
    have hfst : (interpret_command trig fs cmd st).1 = lineResult cmd := by
      rw [interpret_mut_step trig fs cmd st h1]
    have hlr : isMutResult (lineResult cmd) = true := by rw [← hfst]; exact h1
    have hstep : session_step trig fs st cmd =
        { canvas := (interp_canvas trig cmd st.canvas).2,
          history := st.history ++ [cmd] } := by
      unfold session_step
      rw [interpret_mut_step trig fs cmd st h1]
      dsimp only
      rw [if_pos hlr]
    rw [List.foldl_cons]
    rw [hstep] at h2 ⊢
    rw [ih _ h2]
    simp [replayFold_cons, List.append_assoc]

theorem accepted_all_mut (trig : Trig) (fs : FileSys) (cmds : List (List Char)) :
    ∀ st : PState, accepted_mutating trig fs st cmds = true →
      ∀ cmd ∈ cmds, isMutResult (lineResult cmd) = true := by
  induction cmds with
  | nil => intro st h cmd hm; cases hm
  | cons c rest ih =>
    intro st h cmd hm
    rw [accepted_mutating, Bool.and_eq_true] at h
    obtain ⟨h1, h2⟩ := h
    rcases List.mem_cons.mp hm with rfl | hm2
    · have hfst : (interpret_command trig fs cmd st).1 = lineResult cmd := by
        rw [interpret_mut_step trig fs cmd st h1]
      rw [← hfst]
      exact h1
    · exact ih _ h2 cmd hm2

/-- C2: round trip.  A session of accepted mutating commands is saved
(the file holds every history entry, the startup chpen * included); in a
fresh session of the same dimensions, loading that file returns LOAD and
reproduces the original canvas cell by cell. -/
theorem claim_C2_round_trip (trig : Trig) (fs fs2 : FileSys) (w h : Nat)
    (cmds : List (List Char))
    (hacc : accepted_mutating trig fs (initState w h) cmds = true)
    (hlen : ∀ cmd ∈ cmds, cmd.length < bufsize)
    (hfs2 : fs2 ("history.txt".toList) =
      some (save_history (session trig fs w h cmds).history)) :
    (interpret_command trig fs2 ("load\n".toList) (initState w h)).1 = Result.LOAD
    ∧ ∀ cx cy : Nat, cx < w → cy < h →
        getCell ((interpret_command trig fs2 ("load\n".toList) (initState w h)).2).canvas
            cx cy =
          getCell (session trig fs w h cmds).canvas cx cy := by
  have hsess : session trig fs w h cmds =
      { canvas := replayFold trig cmds (init_canvas w h '*'),
        history := "chpen *\n".toList :: cmds } := by
    unfold session
    rw [session_accepted trig fs cmds _ hacc]
    rfl
  have hmutall := accepted_all_mut trig fs cmds _ hacc
  have hfs2b : fs2 ((none : Option (List Char)).getD ("history.txt".toList)) =
      some ("chpen *\n".toList :: cmds) := by
    rw [show (none : Option (List Char)).getD ("history.txt".toList) =
      "history.txt".toList from rfl, hfs2, hsess]
    rfl
  have hload : interpret_command trig fs2 ("load\n".toList) (initState w h) =
      loadLines trig ("chpen *\n".toList :: cmds)
        { canvas := reset_canvas (init_canvas w h '*'),
          history := ["chpen *\n".toList] } := by
    rw [interpret_load_eq trig fs2 ("load\n".toList) (initState w h) none (by rfl),
      load_history_some trig fs2 none (initState w h) _ hfs2b]
    rfl
  have hok : ∀ l ∈ ("chpen *\n".toList :: cmds), l.length < bufsize ∧
      (loadGuard l = true →
        lineResult l ≠ Result.ERRNONINT ∧ lineResult l ≠ Result.ERRLACKARGS) := by
    intro l hm
    rcases List.mem_cons.mp hm with rfl | hm2
    · exact ⟨by decide, fun _ => ⟨by decide, by decide⟩⟩
    · exact ⟨hlen l hm2, fun _ => mut_not_err _ (hmutall l hm2)⟩
  have hfilter : ("chpen *\n".toList :: cmds).filter loadGuard =
      "chpen *\n".toList :: cmds := by
    rw [List.filter_eq_self]
    intro l hm
    rcases List.mem_cons.mp hm with rfl | hm2
    · decide
    · exact loadGuard_of_mut l (hmutall l hm2)
  rw [hload, loadLines_ok trig _ _ hok, hfilter]
  constructor
  · rfl
  · intro cx cy hx hy
    rw [hsess]
    rfl

/-- Witness for claim_C2_round_trip: one accepted line command on a 3x3
canvas; save then load in a fresh 3x3 session reproduces the bitmap. -/
theorem claim_C2_round_trip_witness :
    (interpret_command (fun _ _ => (0, 0))
        (fun n => if n = "history.txt".toList
          then some (save_history (session (fun _ _ => (0, 0)) (fun _ => none) 3 3
            ["line 0 0 2 2\n".toList]).history) else none)
        ("load\n".toList) (initState 3 3)).1 = Result.LOAD
    ∧ ∀ cx cy : Nat, cx < 3 → cy < 3 →
        getCell ((interpret_command (fun _ _ => (0, 0))
            (fun n => if n = "history.txt".toList
              then some (save_history (session (fun _ _ => (0, 0)) (fun _ => none) 3 3
                ["line 0 0 2 2\n".toList]).history) else none)
            ("load\n".toList) (initState 3 3)).2).canvas cx cy =
          getCell (session (fun _ _ => (0, 0)) (fun _ => none) 3 3
            ["line 0 0 2 2\n".toList]).canvas cx cy :=
  claim_C2_round_trip (fun _ _ => (0, 0)) (fun _ => none) _ 3 3
    ["line 0 0 2 2\n".toList] (by decide) (by decide) (by decide)

end Paint
